import Mathlib

/-!
Verification of the scheduler core of `psanford/lambda-reminder`.

The Go package `scheduler` (file `scheduler/scheduler.go`) decides which
cron-scheduled reminder rules are due at a given instant and advances their
persisted run-state.  We embed it shallowly:

* Go `time.Time` becomes `Time := Int` (an abstract instant; the zero value
  `time.Time{}` becomes `0`; `After` becomes `>`, `Equal` becomes `=`,
  `IsZero` becomes `= 0`).
* The Go map `state.State.Rules : map[string]RuleState` becomes an
  association list `StateMap` with Go-map lookup/insert semantics
  (insert replaces the value at an existing key, otherwise appends).
* The third-party cron library `adhocore/gronx` is not part of the
  repository, so the scheduler is parameterised by a `Gronx` record of its
  two entry points (`IsValid`, `NextTickAfter`); a concrete evaluator
  modelled from the spec is provided further below for the claims that
  depend on cron semantics.
* Go functions that mutate `*state.State` and return `error` become pure
  functions returning the new `StateMap` together with an `Option String`
  error (`none` = Go `nil`).
-/

/-- Go `time.Time`, abstractly: an instant on a totally ordered line with a
distinguished zero value.  `time.Time{}` is `0`. -/
abbrev Time := Int

/-- `config.Destination` from `config/config.go`. -/
structure Destination where
  id : String
  type : String
  snsARN : String
  webhookURL : String
  toEmails : List String
  fromEmail : String
  deriving DecidableEq, Repr

/-- `config.Rule` from `config/config.go`. -/
structure Rule where
  name : String
  cron : String
  destinations : List String
  subject : String
  body : String
  deriving DecidableEq, Repr

/-- `config.Config` from `config/config.go`. -/
structure Config where
  rules : List Rule
  dests : List Destination
  deriving DecidableEq, Repr

/-- `state.RuleState` from `state/state.go`. -/
structure RuleState where
  name : String
  cronExpr : String
  lastRunTime : Time
  nextRunTime : Time
  deriving DecidableEq, Repr

/-- `state.State.Rules`, the Go `map[string]RuleState`, as an association
list.  The scheduler only ever looks keys up and stores values, never
iterates the map, so an association list with replace-or-append insertion
is a faithful model. -/
abbrev StateMap := List (String × RuleState)

/-- Go map read `st.Rules[k]` (first entry with the key, if any). -/
def StateMap.find : StateMap → String → Option RuleState
  | [], _ => none
  | (k, v) :: rest, key => if k = key then some v else StateMap.find rest key

/-- Go map write `st.Rules[k] = v`: replace the value at an existing key,
otherwise append a fresh entry. -/
def StateMap.store : StateMap → String → RuleState → StateMap
  | [], key, v => [(key, v)]
  | (k, w) :: rest, key, v =>
      if k = key then (key, v) :: rest
      else (k, w) :: StateMap.store rest key v

/-- The interface of the `adhocore/gronx` cron library as used by
`scheduler.go`: `gronx.Gronx.IsValid` and the package-level
`gronx.NextTickAfter(expr, from, false)` (the third argument is always the
literal `false` in this repository, so it is baked in). -/
structure Gronx where
  isValid : String → Bool
  nextTickAfter : String → Time → Except String Time

/-- `Scheduler.GetNextRunTime` from `scheduler/scheduler.go`: validate the
expression, ask the cron library for the next tick strictly after
`fromTime`, and reject a zero result defensively. -/
def GetNextRunTime (s : Gronx) (cronExpr : String) (fromTime : Time) :
    Except String Time :=
  if !(s.isValid cronExpr) then
    .error ("invalid cron expression: " ++ cronExpr)
  else
    match s.nextTickAfter cronExpr fromTime with
    | .error e => .error ("calculate next run time: " ++ e)
    | .ok nextTime =>
        if nextTime = 0 then
          .error ("no next run time found for cron: " ++ cronExpr)
        else
          .ok nextTime

/-- `Scheduler.IsDue` from `scheduler/scheduler.go`.  The `cronExpr` and
`lastRun` parameters are accepted but unused, exactly as in the source. -/
def IsDue (cronExpr : String) (lastRun nextRun now : Time) : Bool :=
  if nextRun = 0 then
    true
  else
    decide (now > nextRun) || decide (now = nextRun)

/-- The body of the `for _, rule := range conf.Rules` loop of
`Scheduler.GetDueRules`: reconcile one rule against the state and report
the (zero- or one-element) contribution to the due list together with the
updated state.  The three branches are, in source order: missing state
(bootstrap), changed cron snapshot (recompute), and the due check. -/
def getDueRulesStep (s : Gronx) (rule : Rule) (st : StateMap) (now : Time) :
    List Rule × StateMap :=
  match StateMap.find st rule.name with
  | none =>
      match GetNextRunTime s rule.cron now with
      | .error _ => ([], st)
      | .ok nextRun =>
          ([], StateMap.store st rule.name
            { name := rule.name
              cronExpr := rule.cron
              lastRunTime := 0
              nextRunTime := nextRun })
  | some ruleState =>
      if ruleState.cronExpr ≠ rule.cron then
        match GetNextRunTime s rule.cron now with
        | .error _ => ([], st)
        | .ok nextRun =>
            ([], StateMap.store st rule.name
              { name := rule.name
                cronExpr := rule.cron
                lastRunTime := ruleState.lastRunTime
                nextRunTime := nextRun })
      else if IsDue rule.cron ruleState.lastRunTime ruleState.nextRunTime now then
        ([rule], st)
      else
        ([], st)

/-- The loop of `Scheduler.GetDueRules`, threading the mutable state through
the per-rule steps and concatenating the due contributions in rule order. -/
def getDueRulesLoop (s : Gronx) (rules : List Rule) (st : StateMap) (now : Time) :
    List Rule × StateMap :=
  match rules with
  | [] => ([], st)
  | rule :: rest =>
      let head := getDueRulesStep s rule st now
      let tail := getDueRulesLoop s rest head.2 now
      (head.1 ++ tail.1, tail.2)

/-- `Scheduler.GetDueRules` from `scheduler/scheduler.go`.  The Go function
mutates `st` in place and returns `(dueRules, nil)` — its single `return`
always carries a `nil` error — so the embedding returns the due list, the
final state, and the (always-`none`) error. -/
def GetDueRules (s : Gronx) (conf : Config) (st : StateMap) (now : Time) :
    (List Rule × StateMap) × Option String :=
  (getDueRulesLoop s conf.rules st now, none)

/-! ### A concrete cron evaluator, modelled from the spec

The repository delegates cron parsing and next-occurrence computation to the
external `adhocore/gronx` library, whose source is not part of this
repository.  The spec describes it (§4.1) as: parse/validate the standard
5-field syntax (minute, hour, day-of-month, month, day-of-week) plus a
"last day of month" token, and compute the earliest instant strictly later
than the reference instant that satisfies the fields.  The model below
follows those words, at one-minute granularity (`Time` counts minutes since
the Unix epoch). -/

/-- One comma-separated item of a cron field: `*`, a number, a range
`a-b`, a stepped range (`*/s`, `a/s` or `a-b/s`), or the last-day-of-month
token `L` (day-of-month field only). -/
inductive CronItem where
  | all : CronItem
  | num : Nat → CronItem
  | rng : Nat → Nat → CronItem
  | stp : Nat → Nat → Nat → CronItem
  | lastDay : CronItem
  deriving DecidableEq, Repr

/-- A parsed 5-field cron expression. -/
structure CronSpec where
  minute : List CronItem
  hour : List CronItem
  dom : List CronItem
  month : List CronItem
  dow : List CronItem
  deriving DecidableEq, Repr

/-- Split a character list at every occurrence of `c` (delimiters dropped). -/
def splitOnChar (c : Char) : List Char → List (List Char)
  | [] => [[]]
  | x :: xs =>
      let rest := splitOnChar c xs
      if x = c then
        [] :: rest
      else
        match rest with
        | [] => [[x]]
        | r :: rs => (x :: r) :: rs

/-- Parse a non-empty all-digit character list as a number. -/
def parseNatChars : List Char → Option Nat
  | [] => none
  | cs =>
      if cs.all (fun c => c.isDigit) then
        some (cs.foldl (fun acc c => acc * 10 + (c.toNat - 48)) 0)
      else
        none

/-- Modelled from the spec: parse one cron field item given the field's
inclusive bounds; the `L` token is accepted only when `allowL` is set
(day-of-month field). -/
def parseItem (allowL : Bool) (lo hi : Nat) (cs : List Char) : Option CronItem :=
  if allowL ∧ cs = ['L'] then
    some CronItem.lastDay
  else
    match splitOnChar '/' cs with
    | [base] =>
        if base = ['*'] then
          some CronItem.all
        else
          match splitOnChar '-' base with
          | [a, b] =>
              match parseNatChars a, parseNatChars b with
              | some x, some y =>
                  if lo ≤ x ∧ x ≤ y ∧ y ≤ hi then some (CronItem.rng x y) else none
              | _, _ => none
          | _ =>
              match parseNatChars base with
              | some x => if lo ≤ x ∧ x ≤ hi then some (CronItem.num x) else none
              | none => none
    | [base, stepPart] =>
        match parseNatChars stepPart with
        | some s =>
            if s = 0 then none
            else if base = ['*'] then
              some (CronItem.stp lo hi s)
            else
              match splitOnChar '-' base with
              | [a, b] =>
                  match parseNatChars a, parseNatChars b with
                  | some x, some y =>
                      if lo ≤ x ∧ x ≤ y ∧ y ≤ hi then some (CronItem.stp x y s) else none
                  | _, _ => none
              | _ =>
                  match parseNatChars base with
                  | some x => if lo ≤ x ∧ x ≤ hi then some (CronItem.stp x hi s) else none
                  | none => none
        | none => none
    | _ => none

/-- Parse a comma-separated cron field. -/
def parseField (allowL : Bool) (lo hi : Nat) (cs : List Char) : Option (List CronItem) :=
  let items := splitOnChar ',' cs
  if items.all (fun i => (parseItem allowL lo hi i).isSome) ∧ items ≠ [] then
    some (items.filterMap (parseItem allowL lo hi))
  else
    none

/-- Modelled from the spec: parse a whitespace-separated 5-field cron
expression (minute 0-59, hour 0-23, day-of-month 1-31 or `L`, month 1-12,
day-of-week 0-6 with 0 = Sunday). -/
def parseCron (expr : String) : Option CronSpec :=
  match (splitOnChar ' ' expr.data).filter (fun f => f ≠ []) with
  | [mi, h, dm, mo, dw] =>
      match parseField false 0 59 mi, parseField false 0 23 h,
            parseField true 1 31 dm, parseField false 1 12 mo,
            parseField false 0 6 dw with
      | some fmi, some fh, some fdm, some fmo, some fdw =>
          some { minute := fmi, hour := fh, dom := fdm, month := fmo, dow := fdw }
      | _, _, _, _, _ => none
  | _ => none

/-- Civil date (year, month 1-12, day 1-31) of a day count since
1970-01-01, by the standard days-to-civil conversion. -/
def civilFromDays (z0 : Int) : Int × Nat × Nat :=
  let z := z0 + 719468
  let era := z.fdiv 146097
  let doe := (z - era * 146097).toNat
  let yoe := (doe - doe / 1460 + doe / 36524 - doe / 146096) / 365
  let doy := doe - (365 * yoe + yoe / 4 - yoe / 100)
  let mp := (5 * doy + 2) / 153
  let d := doy - (153 * mp + 2) / 5 + 1
  let m := if mp < 10 then mp + 3 else mp - 9
  (era * 400 + yoe + (if m ≤ 2 then 1 else 0), m, d)

/-- Does one item match a field value (`lastDay` is resolved by the caller
and never matches here)? -/
def itemMatches (v : Nat) : CronItem → Bool
  | CronItem.all => true
  | CronItem.num n => v = n
  | CronItem.rng a b => a ≤ v && v ≤ b
  | CronItem.stp a b s => a ≤ v && v ≤ b && (v - a) % s = 0
  | CronItem.lastDay => false

/-- Does a day-of-month item match, given the value and whether the day is
the last of its month? -/
def domItemMatches (isLast : Bool) (v : Nat) : CronItem → Bool
  | CronItem.lastDay => isLast
  | item => itemMatches v item

/-- Modelled from the spec: does the instant `t` (minutes since the epoch)
satisfy all five fields?  Day-of-month and day-of-week combine by the
standard cron rule: when both are restricted the day matches if either
does. -/
def cronMatches (spec : CronSpec) (t : Time) : Bool :=
  let day := t.ediv 1440
  let minOfDay := (t.emod 1440).toNat
  let minute := minOfDay % 60
  let hour := minOfDay / 60
  let cv := civilFromDays day
  let cvNext := civilFromDays (day + 1)
  let isLast := cvNext.2.1 ≠ cv.2.1
  let wd := ((day + 4).emod 7).toNat
  let domStar := spec.dom = [CronItem.all]
  let dowStar := spec.dow = [CronItem.all]
  let domOk := spec.dom.any (domItemMatches isLast cv.2.2)
  let dowOk := spec.dow.any (itemMatches wd)
  let dayOk :=
    if domStar ∧ dowStar then true
    else if domStar then dowOk
    else if dowStar then domOk
    else domOk || dowOk
  spec.minute.any (itemMatches minute) && spec.hour.any (itemMatches hour) &&
    spec.month.any (itemMatches cv.2.1) && dayOk

/-- Fuel-bounded upward scan for the first matching minute at or after `m`. -/
def nextTickSearch (spec : CronSpec) : Nat → Time → Option Time
  | 0, _ => none
  | fuel + 1, m => if cronMatches spec m then some m else nextTickSearch spec fuel (m + 1)

/-- Search horizon: 366 days of minutes — every satisfiable 5-field
expression (without `L`, every month/dom/dow combination recurs within a
year; with `L`, within any 366-day window) has a tick within it. -/
def searchFuel : Nat := 527040

/-- Modelled from the spec: the `adhocore/gronx` cron evaluator.
`nextTickAfter` returns the earliest instant strictly later than the
reference instant that satisfies the expression, `InvalidExpression` when
parsing fails, and (defensively) `NoOccurrenceFound` when the bounded scan
finds nothing. -/
def gronxModel : Gronx :=
  { isValid := fun expr => (parseCron expr).isSome
    nextTickAfter := fun expr t =>
      match parseCron expr with
      | none => .error "invalid expression"
      | some spec =>
          match nextTickSearch spec searchFuel (t + 1) with
          | none => .error "no tick found"
          | some m => .ok m }

/-- `Scheduler.UpdateRuleState` from `scheduler/scheduler.go`: on success the
entry for `ruleName` is overwritten; on a cron error the state is returned
untouched together with the error. -/
def UpdateRuleState (s : Gronx) (st : StateMap) (ruleName cronExpr : String)
    (runTime : Time) : StateMap × Option String :=
  match GetNextRunTime s cronExpr runTime with
  | .error e =>
      (st, some ("calculate next run time for rule " ++ ruleName ++ ": " ++ e))
  | .ok nextRun =>
      (StateMap.store st ruleName
        { name := ruleName
          cronExpr := cronExpr
          lastRunTime := runTime
          nextRunTime := nextRun }, none)

deriving instance DecidableEq for Except

/-- The property the spec assigns to the cron evaluator: any successful
next-tick computation yields an instant strictly later than the reference
instant. -/
def StrictlyAfter (s : Gronx) : Prop :=
  ∀ expr t r, s.nextTickAfter expr t = .ok r → t < r

/-! ### Basic lemmas about the state map and the cron model -/

theorem find_store_self (st : StateMap) (k : String) (v : RuleState) :
    (st.store k v).find k = some v := by
  induction st with
  | nil => simp [StateMap.store, StateMap.find]
  | cons p rest ih =>
      obtain ⟨a, b⟩ := p
      by_cases ha : a = k
      · simp [StateMap.store, ha, StateMap.find]
      · simp [StateMap.store, ha, StateMap.find, ih]

theorem find_store_other (st : StateMap) (k : String) (v : RuleState)
    (key : String) (h : key ≠ k) :
    (st.store k v).find key = st.find key := by
  induction st with
  | nil => simp [StateMap.store, StateMap.find, Ne.symm h]
  | cons p rest ih =>
      obtain ⟨a, b⟩ := p
      by_cases ha : a = k
      · subst ha
        simp [StateMap.store, StateMap.find, Ne.symm h]
      · simp [StateMap.store, ha, StateMap.find, ih]

theorem IsDue_iff (c : String) (l nr now : Time) :
    IsDue c l nr now = true ↔ (nr = 0 ∨ now = nr ∨ now > nr) := by
  unfold IsDue
  by_cases h : nr = 0
  · simp [h]
  · simp [h]
    tauto

theorem nextTickSearch_ge (spec : CronSpec) (fuel : Nat) (m r : Time)
    (h : nextTickSearch spec fuel m = some r) : m ≤ r := by
  induction fuel generalizing m with
  | zero => simp [nextTickSearch] at h
  | succ n ih =>
      rw [nextTickSearch] at h
      by_cases hm : cronMatches spec m = true
      · rw [if_pos hm] at h
        cases h
        exact le_refl _
      · rw [if_neg hm] at h
        exact le_of_lt (Int.lt_iff_add_one_le.mpr (ih (m + 1) h))

theorem gronxModel_strictlyAfter : StrictlyAfter gronxModel := by
  intro expr t r h
  unfold gronxModel at h
  simp only at h
  split at h
  · cases h
  · split at h
    · cases h
    · rename_i m hm
      cases h
      exact Int.lt_iff_add_one_le.mpr (nextTickSearch_ge _ _ _ _ hm)

theorem getNextRunTime_ok (s : Gronx) (hs : StrictlyAfter s)
    (e : String) (t r : Time) (h : GetNextRunTime s e t = .ok r) :
    t < r ∧ r ≠ 0 := by
  unfold GetNextRunTime at h
  split at h
  · cases h
  · split at h
    · cases h
    · rename_i nt hnt
      split at h
      · cases h
      · rename_i hz
        cases h
        exact ⟨hs e t _ hnt, hz⟩

/-! ### Structural lemmas about the resolver loop -/

theorem step_frame (s : Gronx) (rule : Rule) (st : StateMap) (now : Time)
    (key : String) (h : key ≠ rule.name) :
    ((getDueRulesStep s rule st now).2).find key = st.find key := by
  cases hf : StateMap.find st rule.name with
  | none =>
      cases hn : GetNextRunTime s rule.cron now with
      | error e => simp [getDueRulesStep, hf, hn]
      | ok nextRun => simp [getDueRulesStep, hf, hn, find_store_other _ _ _ _ h]
  | some rs =>
      by_cases hc : rs.cronExpr = rule.cron
      · by_cases hd : IsDue rule.cron rs.lastRunTime rs.nextRunTime now = true
        · simp [getDueRulesStep, hf, hc, hd]
        · simp [getDueRulesStep, hf, hc, hd]
      · cases hn : GetNextRunTime s rule.cron now with
        | error e => simp [getDueRulesStep, hf, hc, hn]
        | ok nextRun => simp [getDueRulesStep, hf, hc, hn, find_store_other _ _ _ _ h]

theorem step_due_cases (s : Gronx) (rule : Rule) (st : StateMap) (now : Time) :
    (getDueRulesStep s rule st now).1 = [] ∨
      (getDueRulesStep s rule st now).1 = [rule] := by
  cases hf : StateMap.find st rule.name with
  | none =>
      cases hn : GetNextRunTime s rule.cron now with
      | error e => left; simp [getDueRulesStep, hf, hn]
      | ok nextRun => left; simp [getDueRulesStep, hf, hn]
  | some rs =>
      by_cases hc : rs.cronExpr = rule.cron
      · by_cases hd : IsDue rule.cron rs.lastRunTime rs.nextRunTime now = true
        · right; simp [getDueRulesStep, hf, hc, hd]
        · left; simp [getDueRulesStep, hf, hc, hd]
      · cases hn : GetNextRunTime s rule.cron now with
        | error e => left; simp [getDueRulesStep, hf, hc, hn]
        | ok nextRun => left; simp [getDueRulesStep, hf, hc, hn]

theorem step_congr (s : Gronx) (rule : Rule) (st st₂ : StateMap) (now : Time)
    (h : st₂.find rule.name = st.find rule.name) :
    (getDueRulesStep s rule st₂ now).1 = (getDueRulesStep s rule st now).1 ∧
      ((getDueRulesStep s rule st₂ now).2).find rule.name =
        ((getDueRulesStep s rule st now).2).find rule.name := by
  cases hf : StateMap.find st rule.name with
  | none =>
      rw [hf] at h
      cases hn : GetNextRunTime s rule.cron now with
      | error e => simp [getDueRulesStep, hf, h, hn]
      | ok nextRun => simp [getDueRulesStep, hf, h, hn, find_store_self]
  | some rs =>
      rw [hf] at h
      by_cases hc : rs.cronExpr = rule.cron
      · by_cases hd : IsDue rule.cron rs.lastRunTime rs.nextRunTime now = true
        · simp [getDueRulesStep, hf, h, hc, hd]
        · simp [getDueRulesStep, hf, h, hc, hd]
      · cases hn : GetNextRunTime s rule.cron now with
        | error e => simp [getDueRulesStep, hf, h, hc, hn]
        | ok nextRun => simp [getDueRulesStep, hf, h, hc, hn, find_store_self]

theorem loop_frame (s : Gronx) (rules : List Rule) (st : StateMap) (now : Time)
    (key : String) (h : key ∉ rules.map Rule.name) :
    ((getDueRulesLoop s rules st now).2).find key = st.find key := by
  induction rules generalizing st with
  | nil => rfl
  | cons r rest ih =>
      simp only [List.map_cons, List.mem_cons, not_or] at h
      obtain ⟨h1, h2⟩ := h
      simp only [getDueRulesLoop]
      rw [ih _ h2, step_frame _ _ _ _ _ h1]

theorem loop_sublist (s : Gronx) (rules : List Rule) (st : StateMap) (now : Time) :
    List.Sublist (getDueRulesLoop s rules st now).1 rules := by
  induction rules generalizing st with
  | nil => simp [getDueRulesLoop]
  | cons r rest ih =>
      simp only [getDueRulesLoop]
      rcases step_due_cases s r st now with h | h
      · rw [h]
        simpa using List.Sublist.cons r (ih _)
      · rw [h]
        simpa using List.Sublist.cons₂ r (ih _)

theorem loop_locality (s : Gronx) (rules : List Rule) (st : StateMap) (now : Time)
    (rule : Rule) (hmem : rule ∈ rules) (hnd : (rules.map Rule.name).Nodup) :
    (rule ∈ (getDueRulesLoop s rules st now).1 ↔
      rule ∈ (getDueRulesStep s rule st now).1) ∧
    ((getDueRulesLoop s rules st now).2).find rule.name =
      ((getDueRulesStep s rule st now).2).find rule.name := by
  induction rules generalizing st with
  | nil => cases hmem
  | cons r rest ih =>
      simp only [List.map_cons, List.nodup_cons] at hnd
      obtain ⟨hr, hnd'⟩ := hnd
      rcases List.mem_cons.mp hmem with heq | hmem'
      · subst heq
        simp only [getDueRulesLoop]
        refine ⟨⟨fun hin => ?_, fun hin => ?_⟩, ?_⟩
        · rcases List.mem_append.mp hin with h1 | h2
          · exact h1
          · exact absurd
              (List.mem_map.mpr ⟨rule, (loop_sublist s rest _ now).subset h2, rfl⟩) hr
        · exact List.mem_append.mpr (Or.inl hin)
        · exact loop_frame s rest _ now rule.name hr
      · have hname : rule.name ≠ r.name := by
          intro hh
          exact hr (hh ▸ List.mem_map.mpr ⟨rule, hmem', rfl⟩)
        simp only [getDueRulesLoop]
        have hfind : ((getDueRulesStep s r st now).2).find rule.name =
            st.find rule.name := step_frame s r st now rule.name hname
        have hc := step_congr s rule st (getDueRulesStep s r st now).2 now hfind
        have ihh := ih (getDueRulesStep s r st now).2 hmem' hnd'
        refine ⟨⟨fun hin => ?_, fun hin => ?_⟩, ?_⟩
        · rcases List.mem_append.mp hin with h1 | h2
          · exfalso
            rcases step_due_cases s r st now with hz | hz
            · rw [hz] at h1
              cases h1
            · rw [hz] at h1
              have hrr : rule = r := by simpa using h1
              exact hname (by rw [hrr])
          · have hst := (ihh.1).mp h2
            rw [hc.1] at hst
            exact hst
        · refine List.mem_append.mpr (Or.inr ?_)
          refine (ihh.1).mpr ?_
          rw [hc.1]
          exact hin
        · rw [ihh.2, hc.2]

theorem step_writes (s : Gronx) (rule : Rule) (st : StateMap) (now : Time)
    (key : String) (v : RuleState)
    (h : ((getDueRulesStep s rule st now).2).find key = some v) :
    st.find key = some v ∨
      (v.cronExpr = rule.cron ∧ GetNextRunTime s v.cronExpr now = .ok v.nextRunTime) := by
  by_cases hk : key = rule.name
  · subst hk
    cases hf : StateMap.find st rule.name with
    | none =>
        cases hn : GetNextRunTime s rule.cron now with
        | error e => simp [getDueRulesStep, hf, hn] at h
        | ok nextRun =>
            simp only [getDueRulesStep, hf, hn] at h
            rw [find_store_self] at h
            injection h with h
            subst h
            exact Or.inr ⟨rfl, hn⟩
    | some rs =>
        by_cases hc : rs.cronExpr = rule.cron
        · by_cases hd : IsDue rule.cron rs.lastRunTime rs.nextRunTime now = true
          · simp only [getDueRulesStep, hf, hc, hd] at h
            simp at h
            exact Or.inl (hf.symm.trans h)
          · simp only [getDueRulesStep, hf, hc] at h
            simp [hd] at h
            exact Or.inl (hf.symm.trans h)
        · cases hn : GetNextRunTime s rule.cron now with
          | error e =>
              simp only [getDueRulesStep, hf, hn] at h
              simp [hc] at h
              exact Or.inl (hf.symm.trans h)
          | ok nextRun =>
              simp only [getDueRulesStep, hf, hn] at h
              simp only [hc, ne_eq, not_false_eq_true, if_pos] at h
              rw [find_store_self] at h
              injection h with h
              subst h
              exact Or.inr ⟨rfl, hn⟩
  · rw [step_frame _ _ _ _ _ hk] at h
    exact Or.inl h

theorem loop_writes (s : Gronx) (rules : List Rule) (st : StateMap) (now : Time)
    (key : String) (v : RuleState)
    (h : ((getDueRulesLoop s rules st now).2).find key = some v) :
    st.find key = some v ∨
      GetNextRunTime s v.cronExpr now = .ok v.nextRunTime := by
  induction rules generalizing st with
  | nil => exact Or.inl h
  | cons r rest ih =>
      simp only [getDueRulesLoop] at h
      rcases ih _ h with h' | h'
      · rcases step_writes s r st now key v h' with h'' | h''
        · exact Or.inl h''
        · exact Or.inr h''.2
      · exact Or.inr h'

theorem isDue_false_of_fresh (c : String) (l nr now : Time)
    (h1 : now < nr) (h2 : nr ≠ 0) : IsDue c l nr now = false := by
  unfold IsDue
  rw [if_neg h2]
  simp [lt_asymm h1, ne_of_lt h1]

theorem step_second (s : Gronx) (hs : StrictlyAfter s) (rule : Rule)
    (st st₂ : StateMap) (now : Time)
    (h : st₂.find rule.name = ((getDueRulesStep s rule st now).2).find rule.name) :
    getDueRulesStep s rule st₂ now = ((getDueRulesStep s rule st now).1, st₂) := by
  cases hf : StateMap.find st rule.name with
  | none =>
      cases hn : GetNextRunTime s rule.cron now with
      | error e =>
          simp only [getDueRulesStep, hf, hn] at h ⊢
          simp [getDueRulesStep, h, hf, hn]
      | ok nextRun =>
          have hv := getNextRunTime_ok s hs rule.cron now nextRun hn
          have hd := isDue_false_of_fresh rule.cron 0 nextRun now hv.1 hv.2
          simp only [getDueRulesStep, hf, hn] at h
          rw [find_store_self] at h
          simp [getDueRulesStep, hf, hn, h, hd]
  | some rs =>
      by_cases hc : rs.cronExpr = rule.cron
      · by_cases hd : IsDue rule.cron rs.lastRunTime rs.nextRunTime now = true
        · simp only [getDueRulesStep, hf, hc, hd] at h
          simp at h
          rw [hf] at h
          simp [getDueRulesStep, hf, h, hc, hd]
        · simp only [getDueRulesStep, hf, hc] at h
          simp [hd] at h
          rw [hf] at h
          simp [getDueRulesStep, hf, h, hc, hd]
      · cases hn : GetNextRunTime s rule.cron now with
        | error e =>
            simp only [getDueRulesStep, hf, hn] at h
            simp [hc] at h
            rw [hf] at h
            simp [getDueRulesStep, hf, h, hc, hn]
        | ok nextRun =>
            have hv := getNextRunTime_ok s hs rule.cron now nextRun hn
            have hd := isDue_false_of_fresh rule.cron rs.lastRunTime nextRun now hv.1 hv.2
            simp only [getDueRulesStep, hf, hn] at h
            simp only [hc, ne_eq, not_false_eq_true, if_pos] at h
            rw [find_store_self] at h
            simp [getDueRulesStep, hf, hc, hn, h, hd]

theorem loop_idem (s : Gronx) (hs : StrictlyAfter s) (rules : List Rule)
    (st : StateMap) (now : Time) (hnd : (rules.map Rule.name).Nodup) :
    getDueRulesLoop s rules ((getDueRulesLoop s rules st now).2) now =
      getDueRulesLoop s rules st now := by
  induction rules generalizing st with
  | nil => rfl
  | cons r rest ih =>
      simp only [List.map_cons, List.nodup_cons] at hnd
      obtain ⟨hr, hnd'⟩ := hnd
      have hframe : ((getDueRulesLoop s rest (getDueRulesStep s r st now).2 now).2).find r.name =
          ((getDueRulesStep s r st now).2).find r.name :=
        loop_frame s rest _ now r.name hr
      have hstep := step_second s hs r st _ now hframe
      simp only [getDueRulesLoop]
      rw [hstep]
      simp only
      rw [ih _ hnd']

theorem find_store_isSome (st : StateMap) (k : String) (v : RuleState)
    (key : String) (h : (st.find key).isSome) :
    ((st.store k v).find key).isSome := by
  by_cases hk : key = k
  · subst hk
    rw [find_store_self]
    rfl
  · rw [find_store_other _ _ _ _ hk]
    exact h

theorem step_keeps (s : Gronx) (rule : Rule) (st : StateMap) (now : Time)
    (key : String) (h : (st.find key).isSome) :
    (((getDueRulesStep s rule st now).2).find key).isSome := by
  cases hf : StateMap.find st rule.name with
  | none =>
      cases hn : GetNextRunTime s rule.cron now with
      | error e => simpa [getDueRulesStep, hf, hn] using h
      | ok nextRun =>
          simp only [getDueRulesStep, hf, hn]
          exact find_store_isSome st rule.name _ key h
  | some rs =>
      by_cases hc : rs.cronExpr = rule.cron
      · by_cases hd : IsDue rule.cron rs.lastRunTime rs.nextRunTime now = true
        · simpa [getDueRulesStep, hf, hc, hd] using h
        · simpa [getDueRulesStep, hf, hc, hd] using h
      · cases hn : GetNextRunTime s rule.cron now with
        | error e => simpa [getDueRulesStep, hf, hc, hn] using h
        | ok nextRun =>
            simp only [getDueRulesStep, hf, hn]
            simp only [hc, ne_eq, not_false_eq_true, if_pos]
            exact find_store_isSome st rule.name _ key h

theorem loop_keeps (s : Gronx) (rules : List Rule) (st : StateMap) (now : Time)
    (key : String) (h : (st.find key).isSome) :
    (((getDueRulesLoop s rules st now).2).find key).isSome := by
  induction rules generalizing st with
  | nil => exact h
  | cons r rest ih =>
      simp only [getDueRulesLoop]
      exact ih _ (step_keeps s r st now key h)

/-! ### The claims -/

/-- C4: for every cron expression and every instant, `GetNextRunTime`
(the wrapper around the spec-modelled cron evaluator's `nextAfter`) either
fails or returns an instant strictly greater than the reference instant. -/
theorem c4_nextAfter_strict (expr : String) (t r : Time)
    (h : GetNextRunTime gronxModel expr t = .ok r) : t < r :=
  (getNextRunTime_ok gronxModel gronxModel_strictlyAfter expr t r h).1

/-- C4 witness: the every-minute expression from instant 0 succeeds with 1,
which is strictly greater than 0. -/
theorem c4_nextAfter_strict_witness :
    GetNextRunTime gronxModel "* * * * *" 0 = .ok 1 ∧ (0 : Time) < 1 :=
  ⟨by decide, c4_nextAfter_strict "* * * * *" 0 1 (by decide)⟩

/-- C7: `GetDueRules` always returns a `nil` error, and a rule whose cron
computation fails (no stored state, or a changed cron snapshot) is skipped
with no state written while the remaining rules are still processed: the
pass on that rule followed by the rest equals the pass on the rest alone. -/
theorem c7_never_fails (s : Gronx) (conf : Config) (st : StateMap) (now : Time) :
    (GetDueRules s conf st now).2 = none ∧
    (∀ (rule : Rule) (rest : List Rule),
      (st.find rule.name = none ∨
        ∃ rs, st.find rule.name = some rs ∧ rs.cronExpr ≠ rule.cron) →
      (∃ e, GetNextRunTime s rule.cron now = .error e) →
      getDueRulesLoop s (rule :: rest) st now = getDueRulesLoop s rest st now) := by
  refine ⟨rfl, fun rule rest hmiss herr => ?_⟩
  obtain ⟨e, hn⟩ := herr
  have hstep : getDueRulesStep s rule st now = ([], st) := by
    rcases hmiss with hf | ⟨rs, hf, hc⟩
    · simp [getDueRulesStep, hf, hn]
    · simp [getDueRulesStep, hf, hc, hn]
  simp only [getDueRulesLoop, hstep]
  simp

/-- C7 witness: a new rule with an unparseable cron expression is skipped
and the pass equals the pass on the remaining (empty) rule list. -/
theorem c7_never_fails_witness :
    (GetDueRules gronxModel
        { rules := [{ name := "r", cron := "bad", destinations := [],
                      subject := "", body := "" }], dests := [] } [] 0).2 = none ∧
    getDueRulesLoop gronxModel
        [{ name := "r", cron := "bad", destinations := [], subject := "", body := "" }]
        [] 0 =
      getDueRulesLoop gronxModel [] [] 0 :=
  ⟨(c7_never_fails gronxModel
      { rules := [{ name := "r", cron := "bad", destinations := [],
                    subject := "", body := "" }], dests := [] } [] 0).1,
   (c7_never_fails gronxModel
      { rules := [{ name := "r", cron := "bad", destinations := [],
                    subject := "", body := "" }], dests := [] } [] 0).2
     { name := "r", cron := "bad", destinations := [], subject := "", body := "" } []
     (Or.inl (by decide)) ⟨"invalid cron expression: " ++ "bad", by decide⟩⟩

/-- C8: the state advancer `UpdateRuleState` leaves the state untouched and
reports the error when the cron computation fails, and on success overwrites
the entry for the rule with `last_run` = the run instant, `next_run` = the
computed value and the cron snapshot = the given expression. -/
theorem c8_advancer (s : Gronx) (st : StateMap) (ruleName cronExpr : String)
    (runTime : Time) :
    (∀ e, GetNextRunTime s cronExpr runTime = .error e →
      (UpdateRuleState s st ruleName cronExpr runTime).1 = st ∧
        (UpdateRuleState s st ruleName cronExpr runTime).2 ≠ none) ∧
    (∀ v, GetNextRunTime s cronExpr runTime = .ok v →
      UpdateRuleState s st ruleName cronExpr runTime =
        (st.store ruleName
          { name := ruleName, cronExpr := cronExpr, lastRunTime := runTime,
            nextRunTime := v }, none)) := by
  constructor
  · intro e hn
    simp [UpdateRuleState, hn]
  · intro v hn
    simp [UpdateRuleState, hn]

/-- C8 witness: at instant 0, advancing a rule with the every-minute
expression overwrites its entry with `last_run = 0`, `next_run = 1`, and
advancing with a malformed expression leaves the empty state unchanged. -/
theorem c8_advancer_witness :
    UpdateRuleState gronxModel [] "r" "* * * * *" 0 =
      (StateMap.store [] "r"
        { name := "r", cronExpr := "* * * * *", lastRunTime := 0,
          nextRunTime := 1 }, none) ∧
    (UpdateRuleState gronxModel [] "r" "bad" 0).1 = [] ∧
      (UpdateRuleState gronxModel [] "r" "bad" 0).2 ≠ none :=
  ⟨(c8_advancer gronxModel [] "r" "* * * * *" 0).2 1 (by decide),
   ((c8_advancer gronxModel [] "r" "bad" 0).1
      ("invalid cron expression: " ++ "bad") (by decide)).1,
   ((c8_advancer gronxModel [] "r" "bad" 0).1
      ("invalid cron expression: " ++ "bad") (by decide)).2⟩

/-- C9: the due rules come back in configuration order (a sublist of the
configured rule list), resolution never removes a state entry, and entries
whose key is not a configured rule name are left exactly unchanged. -/
theorem c9_frame (s : Gronx) (conf : Config) (st : StateMap) (now : Time) :
    List.Sublist (GetDueRules s conf st now).1.1 conf.rules ∧
    (∀ key, (st.find key).isSome →
      (((GetDueRules s conf st now).1.2).find key).isSome) ∧
    (∀ key, key ∉ conf.rules.map Rule.name →
      ((GetDueRules s conf st now).1.2).find key = st.find key) :=
  ⟨loop_sublist s conf.rules st now,
   fun key h => loop_keeps s conf.rules st now key h,
   fun key h => loop_frame s conf.rules st now key h⟩

/-- C9 witness: with one configured rule and one orphan state entry, the due
list is a sublist of the configuration and the orphan entry survives the
pass unchanged. -/
theorem c9_frame_witness :
    List.Sublist
      (GetDueRules gronxModel
        { rules := [{ name := "a", cron := "* * * * *", destinations := [],
                      subject := "", body := "" }], dests := [] }
        [("orphan", { name := "orphan", cronExpr := "x", lastRunTime := 1,
                      nextRunTime := 2 })] 0).1.1
      [{ name := "a", cron := "* * * * *", destinations := [],
         subject := "", body := "" }] ∧
    (((GetDueRules gronxModel
        { rules := [{ name := "a", cron := "* * * * *", destinations := [],
                      subject := "", body := "" }], dests := [] }
        [("orphan", { name := "orphan", cronExpr := "x", lastRunTime := 1,
                      nextRunTime := 2 })] 0).1.2).find "orphan").isSome ∧
    (((GetDueRules gronxModel
        { rules := [{ name := "a", cron := "* * * * *", destinations := [],
                      subject := "", body := "" }], dests := [] }
        [("orphan", { name := "orphan", cronExpr := "x", lastRunTime := 1,
                      nextRunTime := 2 })] 0).1.2).find "orphan") =
      some { name := "orphan", cronExpr := "x", lastRunTime := 1, nextRunTime := 2 } :=
  ⟨(c9_frame gronxModel
      { rules := [{ name := "a", cron := "* * * * *", destinations := [],
                    subject := "", body := "" }], dests := [] }
      [("orphan", { name := "orphan", cronExpr := "x", lastRunTime := 1,
                    nextRunTime := 2 })] 0).1,
   (c9_frame gronxModel
      { rules := [{ name := "a", cron := "* * * * *", destinations := [],
                    subject := "", body := "" }], dests := [] }
      [("orphan", { name := "orphan", cronExpr := "x", lastRunTime := 1,
                    nextRunTime := 2 })] 0).2.1 "orphan" (by decide),
   ((c9_frame gronxModel
      { rules := [{ name := "a", cron := "* * * * *", destinations := [],
                    subject := "", body := "" }], dests := [] }
      [("orphan", { name := "orphan", cronExpr := "x", lastRunTime := 1,
                    nextRunTime := 2 })] 0).2.2 "orphan" (by decide)).trans (by decide)⟩

/-- C10: `IsDue` depends only on its `nextRun` and `now` arguments — calls
agreeing on those two but differing arbitrarily in `cronExpr` and `lastRun`
return the same boolean. -/
theorem c10_isDue_noninterference (c₁ c₂ : String) (l₁ l₂ nr now : Time) :
    IsDue c₁ l₁ nr now = IsDue c₂ l₂ nr now := rfl

/-- C1: for a configured rule (rule names unique, as the configuration data
model requires) whose stored RuleState carries the same cron expression as
the rule, `GetDueRules` includes the rule in the due list exactly when the
stored `next_run` is the zero value, or `now` equals it, or `now` is later
than it. -/
theorem c1_due_iff (s : Gronx) (conf : Config) (st : StateMap) (now : Time)
    (rule : Rule) (rs : RuleState)
    (hmem : rule ∈ conf.rules) (hnd : (conf.rules.map Rule.name).Nodup)
    (hfind : st.find rule.name = some rs) (hcron : rs.cronExpr = rule.cron) :
    rule ∈ (GetDueRules s conf st now).1.1 ↔
      (rs.nextRunTime = 0 ∨ now = rs.nextRunTime ∨ now > rs.nextRunTime) := by
  have hloc := loop_locality s conf.rules st now rule hmem hnd
  have hiff := IsDue_iff rule.cron rs.lastRunTime rs.nextRunTime now
  rw [GetDueRules]
  simp only
  rw [hloc.1]
  by_cases hd : IsDue rule.cron rs.lastRunTime rs.nextRunTime now = true
  · simp [getDueRulesStep, hfind, hcron, hd]
    exact hiff.mp hd
  · simp [getDueRulesStep, hfind, hcron, hd]
    have hnot : ¬(rs.nextRunTime = 0 ∨ now = rs.nextRunTime ∨ now > rs.nextRunTime) :=
      fun hh => hd (hiff.mpr hh)
    push_neg at hnot
    exact hnot

/-- C1 witness: a single rule with matching snapshot and `next_run` equal to
`now` is due. -/
theorem c1_due_iff_witness :
    { name := "r", cron := "c", destinations := [], subject := "",
      body := "" : Rule } ∈
      (GetDueRules gronxModel
        { rules := [{ name := "r", cron := "c", destinations := [],
                      subject := "", body := "" }], dests := [] }
        [("r", { name := "r", cronExpr := "c", lastRunTime := 5,
                 nextRunTime := 100 })] 100).1.1 :=
  (c1_due_iff gronxModel
    { rules := [{ name := "r", cron := "c", destinations := [],
                  subject := "", body := "" }], dests := [] }
    [("r", { name := "r", cronExpr := "c", lastRunTime := 5,
             nextRunTime := 100 })] 100
    { name := "r", cron := "c", destinations := [], subject := "", body := "" }
    { name := "r", cronExpr := "c", lastRunTime := 5, nextRunTime := 100 }
    (by decide) (by decide) (by decide) (by decide)).mpr (by decide)

/-- C2: a configured rule (rule names unique) with no stored RuleState is
never in the due list of the pass that bootstraps it, for every `now`; and
when the cron computation succeeds the pass leaves it a fresh RuleState with
zero `last_run`, the rule's cron as snapshot, and the computed `next_run`. -/
theorem c2_bootstrap (s : Gronx) (conf : Config) (st : StateMap) (now : Time)
    (rule : Rule)
    (hmem : rule ∈ conf.rules) (hnd : (conf.rules.map Rule.name).Nodup)
    (hfind : st.find rule.name = none) :
    rule ∉ (GetDueRules s conf st now).1.1 ∧
    (∀ n, GetNextRunTime s rule.cron now = .ok n →
      ((GetDueRules s conf st now).1.2).find rule.name =
        some { name := rule.name, cronExpr := rule.cron, lastRunTime := 0,
               nextRunTime := n }) := by
  have hloc := loop_locality s conf.rules st now rule hmem hnd
  constructor
  · intro hin
    rw [GetDueRules] at hin
    simp only at hin
    have hstep := hloc.1.mp hin
    cases hn : GetNextRunTime s rule.cron now with
    | error e => simp [getDueRulesStep, hfind, hn] at hstep
    | ok n => simp [getDueRulesStep, hfind, hn] at hstep
  · intro n hn
    rw [GetDueRules]
    simp only
    rw [hloc.2]
    simp only [getDueRulesStep, hfind, hn]
    exact find_store_self st rule.name _

/-- C2 witness: a fresh rule with the every-minute expression at instant 0 is
not due, and its bootstrap entry records `last_run = 0` (never run) and
`next_run = 1`. -/
theorem c2_bootstrap_witness :
    ({ name := "r", cron := "* * * * *", destinations := [], subject := "",
       body := "" : Rule } ∉
      (GetDueRules gronxModel
        { rules := [{ name := "r", cron := "* * * * *", destinations := [],
                      subject := "", body := "" }], dests := [] } [] 0).1.1) ∧
    ((GetDueRules gronxModel
        { rules := [{ name := "r", cron := "* * * * *", destinations := [],
                      subject := "", body := "" }], dests := [] } [] 0).1.2).find "r" =
      some { name := "r", cronExpr := "* * * * *", lastRunTime := 0,
             nextRunTime := 1 } :=
  ⟨(c2_bootstrap gronxModel
      { rules := [{ name := "r", cron := "* * * * *", destinations := [],
                    subject := "", body := "" }], dests := [] } [] 0
      { name := "r", cron := "* * * * *", destinations := [], subject := "",
        body := "" }
      (by decide) (by decide) (by decide)).1,
   (c2_bootstrap gronxModel
      { rules := [{ name := "r", cron := "* * * * *", destinations := [],
                    subject := "", body := "" }], dests := [] } [] 0
      { name := "r", cron := "* * * * *", destinations := [], subject := "",
        body := "" }
      (by decide) (by decide) (by decide)).2 1 (by decide)⟩

/-- C3: a configured rule (rule names unique) whose stored snapshot differs
from its current cron is excluded from the due list of that pass — even if
the old `next_run` was already due — and on success its entry is rewritten
with the preserved `last_run`, the new cron as snapshot, and the freshly
computed `next_run`. -/
theorem c3_cron_change (s : Gronx) (conf : Config) (st : StateMap) (now : Time)
    (rule : Rule) (rs : RuleState)
    (hmem : rule ∈ conf.rules) (hnd : (conf.rules.map Rule.name).Nodup)
    (hfind : st.find rule.name = some rs) (hcron : rs.cronExpr ≠ rule.cron) :
    rule ∉ (GetDueRules s conf st now).1.1 ∧
    (∀ n, GetNextRunTime s rule.cron now = .ok n →
      ((GetDueRules s conf st now).1.2).find rule.name =
        some { name := rule.name, cronExpr := rule.cron,
               lastRunTime := rs.lastRunTime, nextRunTime := n }) := by
  have hloc := loop_locality s conf.rules st now rule hmem hnd
  constructor
  · intro hin
    rw [GetDueRules] at hin
    simp only at hin
    have hstep := hloc.1.mp hin
    cases hn : GetNextRunTime s rule.cron now with
    | error e => simp [getDueRulesStep, hfind, hcron, hn] at hstep
    | ok n => simp [getDueRulesStep, hfind, hcron, hn] at hstep
  · intro n hn
    rw [GetDueRules]
    simp only
    rw [hloc.2]
    simp only [getDueRulesStep, hfind, hn]
    simp only [hcron, ne_eq, not_false_eq_true, if_pos]
    exact find_store_self st rule.name _

/-- C3 witness: a rule whose snapshot differs and whose old `next_run` (6) is
already past `now` (100) is still not due, and its entry is rewritten with
`last_run` preserved (5), the new cron, and `next_run` 101. -/
theorem c3_cron_change_witness :
    ({ name := "r", cron := "* * * * *", destinations := [], subject := "",
       body := "" : Rule } ∉
      (GetDueRules gronxModel
        { rules := [{ name := "r", cron := "* * * * *", destinations := [],
                      subject := "", body := "" }], dests := [] }
        [("r", { name := "r", cronExpr := "0 0 1 1 1", lastRunTime := 5,
                 nextRunTime := 6 })] 100).1.1) ∧
    ((GetDueRules gronxModel
        { rules := [{ name := "r", cron := "* * * * *", destinations := [],
                      subject := "", body := "" }], dests := [] }
        [("r", { name := "r", cronExpr := "0 0 1 1 1", lastRunTime := 5,
                 nextRunTime := 6 })] 100).1.2).find "r" =
      some { name := "r", cronExpr := "* * * * *", lastRunTime := 5,
             nextRunTime := 101 } :=
  ⟨(c3_cron_change gronxModel
      { rules := [{ name := "r", cron := "* * * * *", destinations := [],
                    subject := "", body := "" }], dests := [] }
      [("r", { name := "r", cronExpr := "0 0 1 1 1", lastRunTime := 5,
               nextRunTime := 6 })] 100
      { name := "r", cron := "* * * * *", destinations := [], subject := "",
        body := "" }
      { name := "r", cronExpr := "0 0 1 1 1", lastRunTime := 5, nextRunTime := 6 }
      (by decide) (by decide) (by decide) (by decide)).1,
   (c3_cron_change gronxModel
      { rules := [{ name := "r", cron := "* * * * *", destinations := [],
                    subject := "", body := "" }], dests := [] }
      [("r", { name := "r", cronExpr := "0 0 1 1 1", lastRunTime := 5,
               nextRunTime := 6 })] 100
      { name := "r", cron := "* * * * *", destinations := [], subject := "",
        body := "" }
      { name := "r", cronExpr := "0 0 1 1 1", lastRunTime := 5, nextRunTime := 6 }
      (by decide) (by decide) (by decide) (by decide)).2 101 (by decide)⟩

/-- C5: for a cron evaluator whose successful results are strictly later
than the reference instant (the property the spec gives the evaluator) and a
configuration with unique rule names, running `GetDueRules` again on the
state the first call produced, with the same rules and the same `now`,
returns the same due list and the same state, and reports no error. -/
theorem c5_idempotent (s : Gronx) (conf : Config) (st : StateMap) (now : Time)
    (hs : StrictlyAfter s) (hnd : (conf.rules.map Rule.name).Nodup) :
    GetDueRules s conf ((GetDueRules s conf st now).1.2) now =
      GetDueRules s conf st now := by
  simp only [GetDueRules]
  rw [loop_idem s hs conf.rules st now hnd]

/-- C5 witness: bootstrapping one every-minute rule from the empty state and
resolving again at the same instant changes nothing. -/
theorem c5_idempotent_witness :
    GetDueRules gronxModel
        { rules := [{ name := "a", cron := "* * * * *", destinations := [],
                      subject := "", body := "" }], dests := [] }
        ((GetDueRules gronxModel
          { rules := [{ name := "a", cron := "* * * * *", destinations := [],
                        subject := "", body := "" }], dests := [] } [] 0).1.2) 0 =
      GetDueRules gronxModel
        { rules := [{ name := "a", cron := "* * * * *", destinations := [],
                      subject := "", body := "" }], dests := [] } [] 0 :=
  c5_idempotent gronxModel
    { rules := [{ name := "a", cron := "* * * * *", destinations := [],
                  subject := "", body := "" }], dests := [] } [] 0
    gronxModel_strictlyAfter (by decide)

/-- C6 counterexample: the cron-change branch of `GetDueRules` preserves the
stored `last_run` (5) but computes the new `next_run` strictly after `now`
(100), so the written entry has `next_run` 101 while evaluating its stored
cron strictly after its stored `last_run` yields 6 — the claimed invariant
fails at this input. -/
theorem c6_invariant_counterexample :
    ((GetDueRules gronxModel
        { rules := [{ name := "r", cron := "* * * * *", destinations := [],
                      subject := "", body := "" }], dests := [] }
        [("r", { name := "r", cronExpr := "0 0 1 1 1", lastRunTime := 5,
                 nextRunTime := 6 })] 100).1.2).find "r" =
      some { name := "r", cronExpr := "* * * * *", lastRunTime := 5,
             nextRunTime := 101 } ∧
    GetNextRunTime gronxModel "* * * * *" 5 = .ok 6 ∧
    (101 : Time) ≠ 6 := by
  refine ⟨by decide, by decide, by decide⟩

/-- C6 amended: every RuleState entry that `GetDueRules` writes or rewrites
has `next_run` equal to the next occurrence of its stored cron computed
strictly after the pass's `now` instant (entries it did not touch are
returned verbatim); every entry written by `UpdateRuleState` has `next_run`
equal to the next occurrence of its stored cron computed strictly after its
stored `last_run`, which equals the run instant. -/
theorem c6_invariant_amended (s : Gronx) (conf : Config) (st : StateMap)
    (now : Time) (st₂ : StateMap) (ruleName cronExpr : String) (runTime : Time) :
    (∀ key v, ((GetDueRules s conf st now).1.2).find key = some v →
      st.find key = some v ∨
        GetNextRunTime s v.cronExpr now = .ok v.nextRunTime) ∧
    (∀ v, (UpdateRuleState s st₂ ruleName cronExpr runTime).2 = none →
      ((UpdateRuleState s st₂ ruleName cronExpr runTime).1).find ruleName = some v →
      v.cronExpr = cronExpr ∧ v.lastRunTime = runTime ∧
        GetNextRunTime s v.cronExpr v.lastRunTime = .ok v.nextRunTime) := by
  constructor
  · intro key v h
    exact loop_writes s conf.rules st now key v h
  · intro v hok hfind
    cases hn : GetNextRunTime s cronExpr runTime with
    | error e => simp [UpdateRuleState, hn] at hok
    | ok n =>
        simp only [UpdateRuleState, hn] at hfind
        rw [find_store_self] at hfind
        injection hfind with hv
        subst hv
        exact ⟨rfl, rfl, hn⟩

/-- C6 amended witness: the rewritten entry of the counterexample pass indeed
has `next_run` 101 = nextAfter(its cron, now = 100), and an advanced entry at
run instant 7 has `next_run` 8 = nextAfter(its cron, 7). -/
theorem c6_invariant_amended_witness :
    (StateMap.find
        [("r", { name := "r", cronExpr := "0 0 1 1 1", lastRunTime := 5,
                 nextRunTime := 6 })] "r" =
        some { name := "r", cronExpr := "* * * * *", lastRunTime := 5,
               nextRunTime := 101 } ∨
      GetNextRunTime gronxModel "* * * * *" 100 = .ok 101) ∧
    (RuleState.cronExpr
        { name := "u", cronExpr := "* * * * *", lastRunTime := 7,
          nextRunTime := 8 } = "* * * * *" ∧
      RuleState.lastRunTime
        { name := "u", cronExpr := "* * * * *", lastRunTime := 7,
          nextRunTime := 8 } = 7 ∧
      GetNextRunTime gronxModel "* * * * *" 7 = .ok 8) :=
  ⟨(c6_invariant_amended gronxModel
      { rules := [{ name := "r", cron := "* * * * *", destinations := [],
                    subject := "", body := "" }], dests := [] }
      [("r", { name := "r", cronExpr := "0 0 1 1 1", lastRunTime := 5,
               nextRunTime := 6 })] 100 [] "u" "* * * * *" 7).1 "r"
      { name := "r", cronExpr := "* * * * *", lastRunTime := 5,
        nextRunTime := 101 } (by decide),
   by
    have h2 := (c6_invariant_amended gronxModel
      { rules := [{ name := "r", cron := "* * * * *", destinations := [],
                    subject := "", body := "" }], dests := [] }
      [("r", { name := "r", cronExpr := "0 0 1 1 1", lastRunTime := 5,
               nextRunTime := 6 })] 100 [] "u" "* * * * *" 7).2
      { name := "u", cronExpr := "* * * * *", lastRunTime := 7, nextRunTime := 8 }
      (by decide) (by decide)
    exact ⟨h2.1, h2.2.1, by simpa using h2.2.2⟩⟩
